import Mathlib

/-!
Verification of the proof-of-work core of conflux-rust
(`core/src/pow/mod.rs`): boundary arithmetic, hash validation against a
boundary, the difficulty adjustment policy, the epoch difficulty
resolver and its target-difficulty cache.

Modelling conventions:

* 256-bit unsigned integers (`U256`) and 256-bit hashes (`H256`) are
  modelled as `Nat`, with explicit `< 2 ^ 256` bounds where they matter.
* The `uint` crate's `+`, `-`, `*` and `/` panic on overflow, underflow
  and division by zero (in every build profile), so operations that can
  panic are modelled as `Option`-valued, `none` standing for a panic.
  `overflowing_sub` wraps by construction and stays total.
* `u64` arithmetic (`block_count` accumulation) wraps modulo `2 ^ 64`
  in release builds, and is modelled with an explicit `% 2 ^ 64`.
* The `RwLock<HashMap<H256, U256>>` cache is modelled observationally
  as an association list with key-replacing insertion.
-/

namespace ConfluxPow

set_option maxRecDepth 10000

/-- The value `U256::MAX`, i.e. `2 ^ 256 - 1`. -/
def U256MAX : Nat := 2 ^ 256 - 1

/-- The sentinel `ProofOfWorkProblem::NO_BOUNDARY = U256::MAX`. -/
def NO_BOUNDARY : Nat := U256MAX

/-- Wrapping subtraction on `U256` (`overflowing_sub`, value component),
valid for arguments below `2 ^ 256`. -/
def overflowingSub (a b : Nat) : Nat := (a + 2 ^ 256 - b) % 2 ^ 256

/-- Big-endian byte `i` (byte 0 is the most significant) of a 256-bit
value `n`, as laid out by `U256::to_big_endian`. -/
def beByte (n i : Nat) : Nat := n / 2 ^ (8 * (31 - i)) % 256

/-- Numeric value of a big-endian byte buffer, as computed by
`U256::from` on a 32-byte slice. -/
def fromBigEndian (bs : List Nat) : Nat := bs.foldl (fun acc b => acc * 256 + b) 0

/-- Embedding of `nonce_to_lower_bound`: write the nonce in big-endian
bytes, zero bytes 16..31 (the `for i in 16..32` loop), mask the most
significant byte with `0x7f` (`buf[0] & 0x7f`), and reinterpret the
buffer as a 256-bit integer. -/
def nonce_to_lower_bound (nonce : Nat) : Nat :=
  let buf := (List.range 32).map (fun i =>
    if 16 ≤ i then 0
    else if i = 0 then beByte nonce 0 &&& 0x7f
    else beByte nonce i)
  fromBigEndian buf

/-- Embedding of `ProofOfWorkProblem::validate_hash_against_boundary`:
wrapping-subtract the nonce-derived lower bound from the hash and accept
iff the delta is below the boundary or the boundary is the
`NO_BOUNDARY` sentinel. -/
def validate_hash_against_boundary (hash nonce boundary : Nat) : Bool :=
  let lower_bound := nonce_to_lower_bound nonce
  let against_lower_bound := overflowingSub hash lower_bound
  decide (against_lower_bound < boundary) || decide (boundary = NO_BOUNDARY)

/-- Embedding of `compute_inv_x_times_2_pow_256_floor`: `U256::MAX`
divided by `x` with remainder, bumped by one when the remainder plus one
equals `x`. -/
def compute_inv_x_times_2_pow_256_floor (x : Nat) : Nat :=
  let div := U256MAX / x
  let modular := U256MAX % x
  if modular + 1 = x then div + 1 else div

/-- Embedding of `boundary_to_difficulty`; the `assert!` on a zero
argument is modelled as `none`. -/
def boundary_to_difficulty (boundary : Nat) : Option Nat :=
  if boundary = 0 then none
  else if boundary = 1 then some U256MAX
  else some (compute_inv_x_times_2_pow_256_floor boundary)

/-- Embedding of `difficulty_to_boundary`; the `assert!` on a zero
argument is modelled as `none`. -/
def difficulty_to_boundary (difficulty : Nat) : Option Nat :=
  if difficulty = 0 then none
  else if difficulty = 1 then some NO_BOUNDARY
  else some (compute_inv_x_times_2_pow_256_floor difficulty)

/-- Embedding of the `ProofOfWorkConfig` struct.  `u64` fields are
`Nat`s bounded by `2 ^ 64` where theorems need it. -/
structure ProofOfWorkConfig where
  test_mode : Bool
  use_stratum : Bool
  initial_difficulty : Nat
  block_generation_period : Nat
  difficulty_adjustment_epoch_period : Nat
  stratum_listen_addr : String
  stratum_port : Nat
  stratum_secret : Option Nat

/-- Checked `U512` multiplication: the `uint` crate panics (here:
`none`) when the product overflows 512 bits. -/
def u512Mul (a b : Nat) : Option Nat :=
  if a * b ≤ 2 ^ 512 - 1 then some (a * b) else none

/-- Embedding of `ProofOfWorkConfig::target_difficulty`: degenerate
samples (zero timespan, at most one block, test mode) fall back to
`initial_difficulty`; otherwise the rate formula is evaluated in `U512`,
a zero result is clamped to `1` and a result above `U256::MAX` is
saturated. -/
def ProofOfWorkConfig.target_difficulty (cfg : ProofOfWorkConfig)
    (block_count timespan cur_difficulty : Nat) : Option Nat :=
  if timespan = 0 ∨ block_count ≤ 1 ∨ cfg.test_mode = true then
    some cfg.initial_difficulty
  else
    match u512Mul cur_difficulty cfg.block_generation_period with
    | none => none
    | some n1 =>
      match u512Mul n1 (block_count - 1) with
      | none => none
      | some num =>
        match u512Mul timespan 1000000 with
        | none => none
        | some den =>
          let target := num / den
          if target = 0 then some 1
          else if U256MAX < target then some U256MAX
          else some target

/-- Embedding of `ProofOfWorkConfig::get_adjustment_bound`.

Modelled from the spec: the divisor `DIFFICULTY_ADJUSTMENT_FACTOR`
lives in the `parameters` crate, whose source is not provided; the spec
describes it only as "a fixed configured divisor", so it is passed here
as the explicit parameter `factor`.  The `U256` division, subtraction
and addition panic (here: `none`) on a zero divisor, underflow and
overflow respectively. -/
def ProofOfWorkConfig.get_adjustment_bound (cfg : ProofOfWorkConfig)
    (factor diff : Nat) : Option (Nat × Nat) :=
  if factor = 0 then none
  else
    let adjustment := diff / factor
    if diff < adjustment then none
    else
      let min_diff := diff - adjustment
      if U256MAX < diff + adjustment then none
      else
        let max_diff := diff + adjustment
        let initial_diff : Nat := cfg.initial_difficulty
        let min_diff := if min_diff < initial_diff then initial_diff else min_diff
        let max_diff := if max_diff < min_diff then min_diff else max_diff
        some (min_diff, max_diff)

/-- The header fields the resolver reads (`height()`, `difficulty()`,
`timestamp()`, `parent_hash()`); hashes are 256-bit values modelled as
`Nat`. -/
structure BlockHeader where
  height : Nat
  difficulty : Nat
  timestamp : Nat
  parent_hash : Nat
deriving DecidableEq

/-- The two capabilities the resolver consumes from the block store:
`block_header_by_hash` and the `num_blocks_in_epoch` closure. -/
structure ChainState where
  block_header_by_hash : Nat → Option BlockHeader
  num_blocks_in_epoch : Nat → Nat

/-- Observational model of `TargetDifficultyManager` (a
`RwLock<HashMap<H256, U256>>` underneath): an association list from
block hash to cached difficulty. -/
abbrev TargetDifficultyManager := List (Nat × Nat)

/-- Embedding of `TargetDifficultyManager::get` (via
`TargetDifficultyCache::get`, `HashMap::get`). -/
def TargetDifficultyManager.get (c : TargetDifficultyManager) (hash : Nat) :
    Option Nat :=
  (c.find? (fun p => p.1 == hash)).map (fun p => p.2)

/-- Embedding of `TargetDifficultyManager::set` (via
`TargetDifficultyCache::set`, `HashMap::insert`, which replaces the
value stored under an existing key). -/
def TargetDifficultyManager.set (c : TargetDifficultyManager)
    (hash difficulty : Nat) : TargetDifficultyManager :=
  (hash, difficulty) :: c.filter (fun p => p.1 != hash)

/-- The backward walk of the resolver (the
`for _ in 0..difficulty_adjustment_epoch_period` loop): accumulate
`block_count` (a `u64`, wrapping in release builds), follow
`parent_hash` links, and remember the last non-zero timestamp seen as
`min_time`.  `none` models a panic: a missing parent header (`unwrap`)
or a failing `assert!(max_time >= min_time)`.  Returns the final
`(block_count, min_time)`. -/
def epochWalk (data : ChainState) :
    Nat → Nat → BlockHeader → Nat → Nat → Nat → Option (Nat × Nat)
  | 0, _, _, block_count, min_time, _ => some (block_count, min_time)
  | steps + 1, cur, cur_header, block_count, min_time, max_time =>
    let block_count := (block_count + data.num_blocks_in_epoch cur) % 2 ^ 64
    let cur := cur_header.parent_hash
    match data.block_header_by_hash cur with
    | none => none
    | some next_header =>
      let min_time :=
        if next_header.timestamp ≠ 0 then next_header.timestamp else min_time
      if max_time < min_time then none
      else epochWalk data steps cur next_header block_count min_time max_time

/-- Embedding of the free function `target_difficulty` (the epoch
difficulty resolver).  On top of the returned difficulty it carries the
updated cache state explicitly, plus a flag recording whether the header
walk was performed (the source's cache-hit early return skips it).
`none` models a panic: the `expect` on a missing header, the
`assert_ne!(epoch, 0)`, a panic inside the walk, or a `uint` overflow
panic further down.  The `debug_assert!` on the height being a multiple
of `difficulty_adjustment_epoch_period` is compiled out in release
builds and is not modelled. -/
def target_difficulty (data : ChainState) (pow_config : ProofOfWorkConfig)
    (factor : Nat) (cache : TargetDifficultyManager) (cur_hash : Nat) :
    Option (Nat × TargetDifficultyManager × Bool) :=
  match TargetDifficultyManager.get cache cur_hash with
  | some target_diff => some (target_diff, cache, false)
  | none =>
    match data.block_header_by_hash cur_hash with
    | none => none
    | some cur_header =>
      if cur_header.height = 0 then none
      else
        match epochWalk data pow_config.difficulty_adjustment_epoch_period
            cur_hash cur_header 0 0 cur_header.timestamp with
        | none => none
        | some (block_count, min_time) =>
          match pow_config.target_difficulty block_count
              (cur_header.timestamp - min_time) cur_header.difficulty with
          | none => none
          | some target0 =>
            match pow_config.get_adjustment_bound factor
                cur_header.difficulty with
            | none => none
            | some (lower, upper) =>
              let target1 := if upper < target0 then upper else target0
              let target2 := if target1 < lower then lower else target1
              some (target2,
                TargetDifficultyManager.set cache cur_hash target2, true)

/-! Concrete fixtures used by witness theorems. -/

/-- A small non-test configuration (one-block adjustment period keeps
witness walks short). -/
def cfgW : ProofOfWorkConfig :=
  { test_mode := false
    use_stratum := false
    initial_difficulty := 4
    block_generation_period := 1000000
    difficulty_adjustment_epoch_period := 1
    stratum_listen_addr := ""
    stratum_port := 0
    stratum_secret := none }

/-- A test-mode configuration whose `initial_difficulty` is zero
(reachable through `ProofOfWorkConfig::new(true, _, Some(0), ..)`). -/
def cfgZero : ProofOfWorkConfig :=
  { test_mode := true
    use_stratum := false
    initial_difficulty := 0
    block_generation_period := 1000000
    difficulty_adjustment_epoch_period := 20
    stratum_listen_addr := ""
    stratum_port := 0
    stratum_secret := none }

/-- A non-test configuration with `initial_difficulty = 10`. -/
def cfgTen : ProofOfWorkConfig :=
  { cfgW with initial_difficulty := 10, difficulty_adjustment_epoch_period := 20 }

/-- A two-header chain: hash `10` is the epoch upper boundary, its
parent is hash `9`. -/
def dataW : ChainState :=
  { block_header_by_hash := fun h =>
      if h = 10 then some ⟨1, 1000, 30, 9⟩
      else if h = 9 then some ⟨0, 1000, 10, 0⟩
      else none
    num_blocks_in_epoch := fun _ => 21 }

/-! Helper lemmas. -/

theorem foldl_be_zeros (k acc : Nat) :
    (List.replicate k 0).foldl (fun acc b => acc * 256 + b) acc = acc * 256 ^ k := by
  induction k generalizing acc with
  | zero => simp
  | succ k ih =>
    rw [List.replicate_succ, List.foldl_cons, ih]
    ring

theorem foldl_be_bound (l : List Nat) (acc : Nat) (h : ∀ b ∈ l, b < 256) :
    l.foldl (fun acc b => acc * 256 + b) acc < (acc + 1) * 256 ^ l.length := by
  induction l generalizing acc with
  | nil => simp
  | cons b t ih =>
    have hb : b < 256 := h b (by simp)
    have ht : ∀ x ∈ t, x < 256 := fun x hx => h x (by simp [hx])
    calc t.foldl (fun acc b => acc * 256 + b) (acc * 256 + b) <
          (acc * 256 + b + 1) * 256 ^ t.length := ih (acc * 256 + b) ht
      _ ≤ (acc + 1) * 256 ^ (t.length + 1) := by
          have h1 : acc * 256 + b + 1 ≤ (acc + 1) * 256 := by omega
          calc (acc * 256 + b + 1) * 256 ^ t.length ≤
                ((acc + 1) * 256) * 256 ^ t.length := Nat.mul_le_mul_right _ h1
            _ = (acc + 1) * 256 ^ (t.length + 1) := by ring

theorem nonce_lower_bits (n : Nat) :
    nonce_to_lower_bound n % 2 ^ 128 = 0 ∧ nonce_to_lower_bound n < 2 ^ 255 := by
  have hform : nonce_to_lower_bound n =
      fromBigEndian ([beByte n 0 &&& 0x7f, beByte n 1, beByte n 2, beByte n 3,
        beByte n 4, beByte n 5, beByte n 6, beByte n 7, beByte n 8, beByte n 9,
        beByte n 10, beByte n 11, beByte n 12, beByte n 13, beByte n 14,
        beByte n 15] ++ List.replicate 16 0) := rfl
  set front : List Nat := [beByte n 0 &&& 0x7f, beByte n 1, beByte n 2, beByte n 3,
    beByte n 4, beByte n 5, beByte n 6, beByte n 7, beByte n 8, beByte n 9,
    beByte n 10, beByte n 11, beByte n 12, beByte n 13, beByte n 14,
    beByte n 15] with hfront
  have hsplit : nonce_to_lower_bound n = fromBigEndian front * 2 ^ 128 := by
    rw [hform]
    unfold fromBigEndian
    rw [List.foldl_append, foldl_be_zeros]
    norm_num
  have hb0 : beByte n 0 &&& 0x7f < 128 :=
    Nat.lt_succ_of_le (le_trans Nat.and_le_right (by norm_num))
  have hbytes : ∀ i, beByte n i < 256 := fun i => Nat.mod_lt _ (by norm_num)
  have hfrontlt : fromBigEndian front < 2 ^ 127 := by
    unfold fromBigEndian
    rw [hfront, List.foldl_cons]
    have h := foldl_be_bound [beByte n 1, beByte n 2, beByte n 3,
      beByte n 4, beByte n 5, beByte n 6, beByte n 7, beByte n 8, beByte n 9,
      beByte n 10, beByte n 11, beByte n 12, beByte n 13, beByte n 14,
      beByte n 15] (0 * 256 + (beByte n 0 &&& 0x7f))
      (by intro b hb; simp at hb; rcases hb with h|h|h|h|h|h|h|h|h|h|h|h|h|h|h <;>
        (subst h; exact hbytes _))
    calc _ < (0 * 256 + (beByte n 0 &&& 0x7f) + 1) * 256 ^ 15 := h
      _ ≤ 128 * 256 ^ 15 := by
          have := hb0
          exact Nat.mul_le_mul_right _ (by omega)
      _ = 2 ^ 127 := by norm_num
  constructor
  · rw [hsplit]
    exact Nat.mul_mod_left _ _
  · rw [hsplit]
    calc fromBigEndian front * 2 ^ 128 < 2 ^ 127 * 2 ^ 128 :=
          Nat.mul_lt_mul_of_lt_of_le hfrontlt (le_refl _) (by norm_num)
    _ = 2 ^ 255 := by norm_num

/-- C8: for every nonce, `nonce_to_lower_bound` zeroes the low 16 bytes
of the big-endian representation and clears the top bit of the most
significant byte, so the result is divisible by `2 ^ 128` and strictly
below `2 ^ 255` (top bit and low 128 bits are zero). -/
theorem nonce_to_lower_bound_bits_zero (n : Nat) :
    nonce_to_lower_bound n % 2 ^ 128 = 0 ∧ nonce_to_lower_bound n < 2 ^ 255 :=
  nonce_lower_bits n

set_option maxRecDepth 8000 in
set_option maxHeartbeats 800000 in
/-- C1: `validate_hash_against_boundary(h, n, b)` returns `true` iff
the wraparound difference `(h − nonce_to_lower_bound(n)) mod 2 ^ 256`
is below `b` or `b` is the `MAX` no-constraint sentinel; in particular
`b = MAX` accepts every hash and nonce. -/
theorem validate_hash_against_boundary_spec (hash nonce boundary : Nat)
    (hh : hash < 2 ^ 256) (hb : boundary < 2 ^ 256) :
    (validate_hash_against_boundary hash nonce boundary = true ↔
      (((hash : Int) - (nonce_to_lower_bound nonce : Int)) % 2 ^ 256 <
          (boundary : Int) ∨
        boundary = 2 ^ 256 - 1)) ∧
    validate_hash_against_boundary hash nonce (2 ^ 256 - 1) = true := by
  have hl : nonce_to_lower_bound nonce < 2 ^ 256 :=
    lt_trans (nonce_lower_bits nonce).2 (by norm_num)
  constructor
  · unfold validate_hash_against_boundary overflowingSub NO_BOUNDARY U256MAX
    simp only [Bool.or_eq_true, decide_eq_true_eq]
    omega
  · unfold validate_hash_against_boundary NO_BOUNDARY U256MAX
    simp

/-- Witness for C1 at `hash = 5`, `nonce = 0`, `boundary = 7`. -/
theorem validate_hash_against_boundary_spec_witness :
    (5 : Nat) < 2 ^ 256 ∧ (7 : Nat) < 2 ^ 256 ∧
    ((validate_hash_against_boundary 5 0 7 = true ↔
      (((5 : Nat) : Int) - (nonce_to_lower_bound 0 : Int)) % 2 ^ 256 <
          ((7 : Nat) : Int) ∨
        (7 : Nat) = 2 ^ 256 - 1) ∧
      validate_hash_against_boundary 5 0 (2 ^ 256 - 1) = true) :=
  ⟨by norm_num, by norm_num,
    validate_hash_against_boundary_spec 5 0 7 (by norm_num) (by norm_num)⟩

/-- C2: under the source types (`u64` counts and period, `U256`
difficulty) the `U512` intermediates cannot overflow, and
`ProofOfWorkConfig::target_difficulty` returns `initial_difficulty` on a
degenerate sample and otherwise the exact floor-division formula, with a
zero result replaced by `1` and saturation at `U256::MAX`. -/
theorem config_target_difficulty_spec (cfg : ProofOfWorkConfig)
    (block_count timespan cur_difficulty : Nat)
    (hbc : block_count < 2 ^ 64) (hts : timespan < 2 ^ 64)
    (hp : cfg.block_generation_period < 2 ^ 64)
    (hcd : cur_difficulty < 2 ^ 256) :
    cfg.target_difficulty block_count timespan cur_difficulty =
      some (if timespan = 0 ∨ block_count ≤ 1 ∨ cfg.test_mode = true
        then cfg.initial_difficulty
        else
          let t := cur_difficulty * cfg.block_generation_period *
              (block_count - 1) / (timespan * 1000000)
          if t = 0 then 1 else min t U256MAX) := by
  unfold ProofOfWorkConfig.target_difficulty
  by_cases hdeg : timespan = 0 ∨ block_count ≤ 1 ∨ cfg.test_mode = true
  · rw [if_pos hdeg, if_pos hdeg]
  · rw [if_neg hdeg, if_neg hdeg]
    have h1 : cur_difficulty * cfg.block_generation_period ≤ 2 ^ 512 - 1 := by
      calc cur_difficulty * cfg.block_generation_period ≤
            (2 ^ 256 - 1) * (2 ^ 64 - 1) := Nat.mul_le_mul (by omega) (by omega)
        _ ≤ 2 ^ 512 - 1 := by norm_num
    have h2 : cur_difficulty * cfg.block_generation_period * (block_count - 1) ≤
        2 ^ 512 - 1 := by
      calc cur_difficulty * cfg.block_generation_period * (block_count - 1) ≤
            ((2 ^ 256 - 1) * (2 ^ 64 - 1)) * (2 ^ 64 - 1) :=
          Nat.mul_le_mul (Nat.mul_le_mul (by omega) (by omega)) (by omega)
        _ ≤ 2 ^ 512 - 1 := by norm_num
    have h3 : timespan * 1000000 ≤ 2 ^ 512 - 1 := by
      calc timespan * 1000000 ≤ (2 ^ 64 - 1) * 1000000 :=
          Nat.mul_le_mul (by omega) (le_refl _)
        _ ≤ 2 ^ 512 - 1 := by norm_num
    simp only [u512Mul, if_pos h1, if_pos h2, if_pos h3]
    split_ifs with hz hsat
    · rfl
    · simp only [Option.some.injEq]
      omega
    · simp only [Option.some.injEq]
      omega

/-- Witness for C2 at the steady-state scenario: `block_count = 21`,
`timespan = 20`, `cur_difficulty = 1000` under `cfgW`. -/
theorem config_target_difficulty_spec_witness :
    (21 : Nat) < 2 ^ 64 ∧ (20 : Nat) < 2 ^ 64 ∧
    cfgW.block_generation_period < 2 ^ 64 ∧ (1000 : Nat) < 2 ^ 256 ∧
    cfgW.target_difficulty 21 20 1000 =
      some (if (20 : Nat) = 0 ∨ (21 : Nat) ≤ 1 ∨ cfgW.test_mode = true
        then cfgW.initial_difficulty
        else
          let t := 1000 * cfgW.block_generation_period * (21 - 1) /
              (20 * 1000000)
          if t = 0 then 1 else min t U256MAX) :=
  ⟨by norm_num, by norm_num, by norm_num [cfgW], by norm_num,
    config_target_difficulty_spec cfgW 21 20 1000 (by norm_num) (by norm_num)
      (by norm_num [cfgW]) (by norm_num)⟩

theorem inv_floor_eq (x : Nat) (h2 : 2 ≤ x) (hx : x ≤ U256MAX) :
    compute_inv_x_times_2_pow_256_floor x = 2 ^ 256 / x := by
  have hU : U256MAX = 2 ^ 256 - 1 := rfl
  have hpos : 0 < x := by omega
  have hdm : x * (U256MAX / x) + U256MAX % x = U256MAX := Nat.div_add_mod _ _
  have hr : U256MAX % x < x := Nat.mod_lt _ hpos
  unfold compute_inv_x_times_2_pow_256_floor
  set q := U256MAX / x with hq
  set r := U256MAX % x with hrdef
  have hdm' : q * x + r = U256MAX := by rw [Nat.mul_comm]; exact hdm
  by_cases h : r + 1 = x
  · rw [if_pos h]
    have hx2 : (q + 1) * x = 2 ^ 256 := by
      have hexp : (q + 1) * x = q * x + x := by ring
      omega
    rw [← hx2, Nat.mul_div_cancel _ hpos]
  · rw [if_neg h]
    have hlo : q * x ≤ 2 ^ 256 := by omega
    have hup : 2 ^ 256 < (q + 1) * x := by
      have hexp : (q + 1) * x = q * x + x := by ring
      omega
    exact (Nat.div_eq_of_lt_le hlo hup).symm

/-- C3: for `2 ≤ d ≤ U256::MAX`, `difficulty_to_boundary(d)` is exactly
`floor(2 ^ 256 / d)` (computed as `MAX div d` with the remainder-based
bump), and the `d = 1` and `b = 1` endpoints saturate to `MAX`. -/
theorem difficulty_to_boundary_spec (d : Nat) (h2 : 2 ≤ d) (hd : d ≤ U256MAX) :
    difficulty_to_boundary d = some (2 ^ 256 / d) ∧
    difficulty_to_boundary 1 = some U256MAX ∧
    boundary_to_difficulty 1 = some U256MAX := by
  refine ⟨?_, rfl, rfl⟩
  unfold difficulty_to_boundary
  rw [if_neg (by omega), if_neg (by omega), inv_floor_eq d h2 hd]

/-- Witness for C3 at `d = 3`. -/
theorem difficulty_to_boundary_spec_witness :
    2 ≤ 3 ∧ (3 : Nat) ≤ U256MAX ∧
    (difficulty_to_boundary 3 = some (2 ^ 256 / 3) ∧
      difficulty_to_boundary 1 = some U256MAX ∧
      boundary_to_difficulty 1 = some U256MAX) :=
  ⟨by norm_num, by norm_num [U256MAX],
    difficulty_to_boundary_spec 3 (by norm_num) (by norm_num [U256MAX])⟩

/-- C4 counterexample: at `d = 2 ^ 255 - 1` the round trip lands on
`2 ^ 255`, not `d`, while no saturating endpoint is involved (the
boundary is `2`, neither `1` nor `MAX`, and neither `d` nor the result
is `1` or `MAX`). -/
theorem boundary_roundtrip_cex :
    (difficulty_to_boundary (2 ^ 255 - 1)).bind boundary_to_difficulty =
      some (2 ^ 255) ∧
    difficulty_to_boundary (2 ^ 255 - 1) = some 2 ∧
    (2 ^ 255 : Nat) ≠ 2 ^ 255 - 1 ∧
    (2 ^ 255 - 1 : Nat) ≠ U256MAX ∧ (2 ^ 255 : Nat) ≠ U256MAX := by
  refine ⟨?_, ?_, by norm_num, ?_, ?_⟩ <;> decide

/-- C4 amended: the round trip
`boundary_to_difficulty (difficulty_to_boundary d) = d` holds exactly on
`2 ≤ d ≤ 2 ^ 128`; above `2 ^ 128` the floor of `2 ^ 256 / d` is too
coarse and the round trip can overshoot even away from the saturating
endpoints. -/
theorem boundary_roundtrip_amended (d : Nat) (h2 : 2 ≤ d) (hd : d ≤ 2 ^ 128) :
    (difficulty_to_boundary d).bind boundary_to_difficulty = some d := by
  have hU : U256MAX = 2 ^ 256 - 1 := rfl
  have hdmax : d ≤ U256MAX := by omega
  have hb : difficulty_to_boundary d = some (2 ^ 256 / d) := by
    unfold difficulty_to_boundary
    rw [if_neg (by omega), if_neg (by omega), inv_floor_eq d h2 hdmax]
  set b := 2 ^ 256 / d with hbdef
  have hqge : 2 ^ 128 ≤ b := by
    calc (2 : Nat) ^ 128 = 2 ^ 256 / 2 ^ 128 := by norm_num
      _ ≤ 2 ^ 256 / d := Nat.div_le_div_left hd (by omega)
  have hb2 : 2 ≤ b := le_trans (by norm_num) hqge
  have hbmax : b ≤ U256MAX := by
    have hhalf : b ≤ 2 ^ 256 / 2 := Nat.div_le_div_left h2 (by norm_num)
    omega
  rw [hb]
  show boundary_to_difficulty b = some d
  unfold boundary_to_difficulty
  rw [if_neg (by omega), if_neg (by omega), inv_floor_eq b hb2 hbmax]
  congr 1
  have hdm : d * b + 2 ^ 256 % d = 2 ^ 256 := Nat.div_add_mod _ _
  have hr : 2 ^ 256 % d < d := Nat.mod_lt _ (by omega)
  have hlo : d * b ≤ 2 ^ 256 := by omega
  have hup : 2 ^ 256 < (d + 1) * b := by
    have hexp : (d + 1) * b = d * b + b := by ring
    omega
  exact Nat.div_eq_of_lt_le hlo hup

/-- Witness for the amended C4 at `d = 5`. -/
theorem boundary_roundtrip_amended_witness :
    2 ≤ 5 ∧ (5 : Nat) ≤ 2 ^ 128 ∧
    (difficulty_to_boundary 5).bind boundary_to_difficulty = some 5 :=
  ⟨by norm_num, by norm_num,
    boundary_roundtrip_amended 5 (by norm_num) (by norm_num)⟩

/-- C5 counterexample: with the production divisor value `2`, at
`diff = U256::MAX` the addition `diff + diff / factor` overflows and the
`uint` `+` panics instead of clamping, so no pair is returned at all. -/
theorem get_adjustment_bound_cex :
    ProofOfWorkConfig.get_adjustment_bound cfgW 2 U256MAX = none := by
  decide

/-- C5 amended: as long as `diff + diff / factor` does not overflow
256 bits (and the divisor is non-zero), `get_adjustment_bound` returns
`(max (diff − adj) initial_difficulty, max (diff + adj) min)` and the
pair is ordered; on overflow the `U256` addition panics rather than
clamping. -/
theorem get_adjustment_bound_amended (cfg : ProofOfWorkConfig)
    (factor diff : Nat) (hf : 0 < factor)
    (hno : diff + diff / factor ≤ U256MAX) :
    cfg.get_adjustment_bound factor diff =
      some (max (diff - diff / factor) cfg.initial_difficulty,
        max (diff + diff / factor)
          (max (diff - diff / factor) cfg.initial_difficulty)) ∧
    max (diff - diff / factor) cfg.initial_difficulty ≤
      max (diff + diff / factor)
        (max (diff - diff / factor) cfg.initial_difficulty) := by
  have hadj : diff / factor ≤ diff := Nat.div_le_self _ _
  constructor
  · unfold ProofOfWorkConfig.get_adjustment_bound
    rw [if_neg (by omega), if_neg (by omega), if_neg (by omega)]
    simp only [Option.some.injEq, Prod.mk.injEq]
    constructor <;> (split_ifs <;> omega)
  · omega

/-- Witness for the amended C5 at `factor = 2`, `diff = 1000` under
`cfgW` (whose `initial_difficulty` is `4`). -/
theorem get_adjustment_bound_amended_witness :
    (0 : Nat) < 2 ∧ 1000 + 1000 / 2 ≤ U256MAX ∧
    (cfgW.get_adjustment_bound 2 1000 =
      some (max (1000 - 1000 / 2) cfgW.initial_difficulty,
        max (1000 + 1000 / 2)
          (max (1000 - 1000 / 2) cfgW.initial_difficulty)) ∧
      max (1000 - 1000 / 2) cfgW.initial_difficulty ≤
        max (1000 + 1000 / 2)
          (max (1000 - 1000 / 2) cfgW.initial_difficulty)) :=
  ⟨by norm_num, by norm_num [U256MAX],
    get_adjustment_bound_amended cfgW 2 1000 (by norm_num)
      (by norm_num [U256MAX])⟩

theorem get_adjustment_bound_le (cfg : ProofOfWorkConfig)
    (factor diff lo hi : Nat)
    (h : cfg.get_adjustment_bound factor diff = some (lo, hi)) : lo ≤ hi := by
  unfold ProofOfWorkConfig.get_adjustment_bound at h
  by_cases h0 : factor = 0
  · rw [if_pos h0] at h
    exact absurd h (by simp)
  rw [if_neg h0] at h
  by_cases h1 : diff < diff / factor
  · rw [if_pos h1] at h
    exact absurd h (by simp)
  rw [if_neg h1] at h
  by_cases h2 : U256MAX < diff + diff / factor
  · rw [if_pos h2] at h
    exact absurd h (by simp)
  rw [if_neg h2] at h
  simp only [Option.some.injEq, Prod.mk.injEq] at h
  obtain ⟨hlo, hhi⟩ := h
  split_ifs at hlo hhi <;> omega

/-- C9 counterexample: with `initial_difficulty = 0` (reachable via
`ProofOfWorkConfig::new(true, _, Some(0), ..)`) the degenerate branch
returns `0`; and with `initial_difficulty = 10` the non-degenerate
branch can return `1 < initial_difficulty`, so the result is clamped to
`1`, not to `initial_difficulty`. -/
theorem target_difficulty_zero_cex :
    cfgZero.target_difficulty 5 5 7 = some 0 ∧
    (cfgTen.target_difficulty 2 2 1 = some 1 ∧
      1 < cfgTen.initial_difficulty) := by
  refine ⟨?_, ?_, ?_⟩ <;> decide

/-- C9 amended: provided `initial_difficulty` is non-zero, every value
returned by `ProofOfWorkConfig::target_difficulty` is non-zero; the
degenerate branch returns `initial_difficulty` and the formula branch
clamps a zero result to `1` (not to `initial_difficulty`). -/
theorem target_difficulty_never_zero (cfg : ProofOfWorkConfig)
    (block_count timespan cur_difficulty v : Nat)
    (hinit : 0 < cfg.initial_difficulty)
    (hres : cfg.target_difficulty block_count timespan cur_difficulty =
      some v) :
    0 < v := by
  have hU : 0 < U256MAX := by norm_num [U256MAX]
  unfold ProofOfWorkConfig.target_difficulty at hres
  split at hres
  · simp only [Option.some.injEq] at hres
    omega
  · split at hres
    · exact absurd hres (by simp)
    · split at hres
      · exact absurd hres (by simp)
      · split at hres
        · exact absurd hres (by simp)
        · simp only [] at hres
          split at hres
          · simp only [Option.some.injEq] at hres
            omega
          · split at hres <;> simp only [Option.some.injEq] at hres <;> omega

/-- Witness for the amended C9 under `cfgW` at the steady-state
scenario. -/
theorem target_difficulty_never_zero_witness :
    0 < cfgW.initial_difficulty ∧
    cfgW.target_difficulty 21 20 1000 = some 1000 ∧ (0 : Nat) < 1000 :=
  ⟨by norm_num [cfgW], by decide,
    target_difficulty_never_zero cfgW 21 20 1000 1000 (by norm_num [cfgW])
      (by decide)⟩

theorem cache_get_set_self (c : TargetDifficultyManager) (h d : Nat) :
    TargetDifficultyManager.get (TargetDifficultyManager.set c h d) h =
      some d := by
  unfold TargetDifficultyManager.get TargetDifficultyManager.set
  simp [List.find?_cons]

theorem find?_filter_ne (t : List (Nat × Nat)) (h h' : Nat) (hne : h' ≠ h) :
    List.find? (fun p => p.1 == h') (t.filter (fun p => p.1 != h)) =
      List.find? (fun p => p.1 == h') t := by
  induction t with
  | nil => rfl
  | cons p t ih =>
    rw [List.filter_cons]
    by_cases hp : p.1 = h
    · rw [if_neg (by simp [hp])]
      rw [List.find?_cons_of_neg _ (by simp [hp]; omega)]
      exact ih
    · rw [if_pos (by simp [hp])]
      by_cases hq : p.1 = h'
      · rw [List.find?_cons_of_pos _ (by simp [hq]),
          List.find?_cons_of_pos _ (by simp [hq])]
      · rw [List.find?_cons_of_neg _ (by simp [hq]),
          List.find?_cons_of_neg _ (by simp [hq])]
        exact ih

theorem cache_get_set_ne (c : TargetDifficultyManager) (h d h' : Nat)
    (hne : h' ≠ h) :
    TargetDifficultyManager.get (TargetDifficultyManager.set c h d) h' =
      TargetDifficultyManager.get c h' := by
  unfold TargetDifficultyManager.get TargetDifficultyManager.set
  rw [List.find?_cons_of_neg _ (by simp; omega)]
  rw [find?_filter_ne c h h' hne]

/-- C10: the cache behaves as a key-value map: `set` followed by `get`
on the same hash returns the just-stored difficulty (overwriting any
previous entry), `get` on any other hash is unaffected by the `set`,
and `get` on the empty cache returns `none`. -/
theorem cache_set_get_spec (c : TargetDifficultyManager) (h d h' : Nat)
    (hne : h' ≠ h) :
    TargetDifficultyManager.get (TargetDifficultyManager.set c h d) h =
      some d ∧
    TargetDifficultyManager.get (TargetDifficultyManager.set c h d) h' =
      TargetDifficultyManager.get c h' ∧
    TargetDifficultyManager.get ([] : TargetDifficultyManager) h = none :=
  ⟨cache_get_set_self c h d, cache_get_set_ne c h d h' hne, rfl⟩

/-- Witness for C10 with the cache `[(2, 7)]`, storing under key `1` and
reading back keys `1` and `2`. -/
theorem cache_set_get_spec_witness :
    (2 : Nat) ≠ 1 ∧
    (TargetDifficultyManager.get
        (TargetDifficultyManager.set [(2, 7)] 1 5) 1 = some 5 ∧
      TargetDifficultyManager.get
          (TargetDifficultyManager.set [(2, 7)] 1 5) 2 =
        TargetDifficultyManager.get [(2, 7)] 2 ∧
      TargetDifficultyManager.get ([] : TargetDifficultyManager) 1 = none) :=
  ⟨by norm_num, cache_set_get_spec [(2, 7)] 1 5 2 (by norm_num)⟩

/-- C6: whenever the epoch resolver completes on a cache miss, the
returned difficulty lies inside the adjustment interval
`get_adjustment_bound(cur_difficulty)` computed from the difficulty of
the header at `cur_hash`. -/
theorem resolver_within_adjustment_bound
    (data : ChainState) (cfg : ProofOfWorkConfig) (factor : Nat)
    (cache : TargetDifficultyManager) (cur_hash : Nat) (hdr : BlockHeader)
    (v : Nat) (c' : TargetDifficultyManager) (w : Bool) (lo hi : Nat)
    (hmiss : TargetDifficultyManager.get cache cur_hash = none)
    (hhdr : data.block_header_by_hash cur_hash = some hdr)
    (hbound : cfg.get_adjustment_bound factor hdr.difficulty = some (lo, hi))
    (hres : target_difficulty data cfg factor cache cur_hash =
      some (v, c', w)) :
    lo ≤ v ∧ v ≤ hi := by
  have hlohi : lo ≤ hi :=
    get_adjustment_bound_le cfg factor hdr.difficulty lo hi hbound
  unfold target_difficulty at hres
  simp only [hmiss, hhdr, hbound] at hres
  split at hres
  · exact absurd hres (by simp)
  · split at hres
    · exact absurd hres (by simp)
    · split at hres
      · exact absurd hres (by simp)
      · simp only [Option.some.injEq, Prod.mk.injEq] at hres
        obtain ⟨hv, -⟩ := hres
        split_ifs at hv <;> omega

/-- Witness for C6 on the two-header chain `dataW`: the resolver returns
`1000`, inside the bound `(500, 1500)` of `get_adjustment_bound` at
difficulty `1000` with divisor `2`. -/
theorem resolver_within_adjustment_bound_witness :
    TargetDifficultyManager.get ([] : TargetDifficultyManager) 10 = none ∧
    dataW.block_header_by_hash 10 = some ⟨1, 1000, 30, 9⟩ ∧
    cfgW.get_adjustment_bound 2 (1000 : Nat) = some (500, 1500) ∧
    target_difficulty dataW cfgW 2 [] 10 = some (1000, [(10, 1000)], true) ∧
    (500 ≤ 1000 ∧ 1000 ≤ 1500) :=
  ⟨rfl, by decide, by decide, by decide,
    resolver_within_adjustment_bound dataW cfgW 2 [] 10 ⟨1, 1000, 30, 9⟩
      1000 [(10, 1000)] true 500 1500 rfl (by decide) (by decide) (by decide)⟩

/-- C7: if the resolver returns `(v, c₁)` then `c₁` maps `cur_hash` to
`v`, and a second call over the unchanged chain state and cache `c₁`
returns the identical value `v` with the cache unchanged and without
performing the header walk (the `false` flag): it is answered by the
lookup at the start of the call. -/
theorem resolver_second_call_cache_hit
    (data : ChainState) (cfg : ProofOfWorkConfig) (factor : Nat)
    (cache : TargetDifficultyManager) (cur_hash v : Nat)
    (c1 : TargetDifficultyManager) (w : Bool)
    (h1 : target_difficulty data cfg factor cache cur_hash =
      some (v, c1, w)) :
    TargetDifficultyManager.get c1 cur_hash = some v ∧
    target_difficulty data cfg factor c1 cur_hash = some (v, c1, false) := by
  have hget : TargetDifficultyManager.get c1 cur_hash = some v := by
    unfold target_difficulty at h1
    rcases hc : TargetDifficultyManager.get cache cur_hash with _ | d
    · simp only [hc] at h1
      split at h1
      · exact absurd h1 (by simp)
      · split at h1
        · exact absurd h1 (by simp)
        · split at h1
          · exact absurd h1 (by simp)
          · split at h1
            · exact absurd h1 (by simp)
            · split at h1
              · exact absurd h1 (by simp)
              · simp only [Option.some.injEq, Prod.mk.injEq] at h1
                obtain ⟨hv, hc1, -⟩ := h1
                subst hv
                subst hc1
                exact cache_get_set_self cache cur_hash _
    · simp only [hc, Option.some.injEq, Prod.mk.injEq] at h1
      obtain ⟨hv, hc1, -⟩ := h1
      subst hv
      subst hc1
      exact hc
  refine ⟨hget, ?_⟩
  unfold target_difficulty
  rw [hget]

/-- Witness for C7: after the first resolution on `dataW` the second
call is a pure cache hit. -/
theorem resolver_second_call_cache_hit_witness :
    target_difficulty dataW cfgW 2 [] 10 = some (1000, [(10, 1000)], true) ∧
    (TargetDifficultyManager.get [(10, 1000)] 10 = some 1000 ∧
      target_difficulty dataW cfgW 2 [(10, 1000)] 10 =
        some (1000, [(10, 1000)], false)) :=
  ⟨by decide,
    resolver_second_call_cache_hit dataW cfgW 2 [] 10 1000 [(10, 1000)] true
      (by decide)⟩

end ConfluxPow
